import Mathlib

/-! Shallow embedding of aa_greeting.py: the AA selection and reconciliation
engine.  Pure data is modelled directly; the remote API is modelled as an
environment value, and the mutating remote calls issued by the reconciler are
modelled as an explicit trace. -/

namespace AAG

/-- Media file types from the SDK; the script only ever uses wav. -/
inductive MediaFileType
  | wav
  | wma
deriving DecidableEq

/-- Greeting mode of an AA menu (wxc_sdk.common.Greeting). -/
inductive Greeting
  | default
  | custom
deriving DecidableEq

/-- Reference to an uploaded audio asset (AutoAttendantAudioFile). -/
structure AutoAttendantAudioFile where
  name : String
  mediaType : MediaFileType
deriving DecidableEq

/-- One menu configuration of an AA: greeting mode plus optional audio asset. -/
structure AAMenu where
  greeting : Greeting
  audioFile : Option AutoAttendantAudioFile
deriving DecidableEq

/-- AA details as fetched by the details call: the two time-profile menus. -/
structure AADetails where
  businessHoursMenu : AAMenu
  afterHoursMenu : AAMenu
deriving DecidableEq

/-- A location entity from the remote directory. -/
structure Location where
  locationId : String
  name : String
deriving DecidableEq

/-- An auto attendant entity as returned by the AA list call. -/
structure AutoAttendant where
  autoAttendantId : String
  locationId : String
  locationName : String
  name : String
deriving DecidableEq

/-- Remote directory contents backing the black-box API. -/
structure Env where
  locations : List Location
  aas : List AutoAttendant
deriving DecidableEq

/-- Mutating remote calls issued by update_aa, recorded in issue order. -/
inductive RemoteCall
  | upload (orgId locationId aaId : String) (business : Bool) (path : String)
  | update (orgId locationId aaId : String) (settings : AADetails)
deriving DecidableEq

/-- os.path.basename over slash-separated paths: the part after the last slash. -/
def basename (p : String) : String :=
  ⟨p.data.foldl (fun acc c => if c = '/' then [] else acc ++ [c]) []⟩

/-- aa_str from the script: "(location_name:aa_name)". -/
def aa_str (aa : AutoAttendant) : String :=
  "(" ++ aa.locationName ++ ":" ++ aa.name ++ ")"

/-- The menu update_aa selects: business_hours_menu when menu is "business",
after_hours_menu otherwise. -/
def menuOf (details : AADetails) (menu : String) : AAMenu :=
  if menu == "business" then details.businessHoursMenu else details.afterHoursMenu

/-- Writing the mutated menu back into the deep-copied details. -/
def putMenu (details : AADetails) (menu : String) (m : AAMenu) : AADetails :=
  if menu == "business" then { details with businessHoursMenu := m }
  else { details with afterHoursMenu := m }

/-- update_aa from the script, rendered as the ordered trace of mutating remote
calls it issues for one AA, given the details snapshot returned by the initial
read-only fetch.  The control flow mirrors the source: on a "default" greeting
an early return when the mode is already default, else one settings update; on
a custom greeting an upload unless an asset of the same basename is already
present (and reupload is off), then an early return when the mode is already
custom, else one settings update pointing the menu at the named wav asset.
The test flag suppresses both mutating calls. -/
def update_aa (orgId : String) (aa : AutoAttendant) (details : AADetails)
    (menu greeting : String) (test reUpload : Bool) : List RemoteCall :=
  let updateMenu := menuOf details menu
  if greeting == "default" then
    if updateMenu.greeting == Greeting.default then
      []
    else
      if test then []
      else [RemoteCall.update orgId aa.locationId aa.autoAttendantId
              (putMenu details menu { updateMenu with greeting := Greeting.default })]
  else
    let bn := basename greeting
    let alreadyUploaded : Bool :=
      match updateMenu.audioFile with
      | some af => af.name == bn
      | none => false
    let uploads : List RemoteCall :=
      if alreadyUploaded && !reUpload then []
      else if test then []
      else [RemoteCall.upload orgId aa.locationId aa.autoAttendantId (menu == "business") greeting]
    if updateMenu.greeting == Greeting.custom then
      uploads
    else
      uploads ++
        (if test then []
         else [RemoteCall.update orgId aa.locationId aa.autoAttendantId
                 (putMenu details menu
                   { updateMenu with
                     greeting := Greeting.custom
                     audioFile := some ⟨bn, MediaFileType.wav⟩ })])

/-- Abstract syntax of the modelled subset of Python regular expressions used
by the script: literal characters, dot, star, alternation, groups and the two
anchors.  Metacharacters outside this subset are treated as compile errors. -/
inductive Regex
  | eps
  | char (c : Char)
  | dot
  | bol
  | eol
  | seq (a b : Regex)
  | alt (a b : Regex)
  | star (a : Regex)
deriving DecidableEq

/-- Whether the root of a regex is an alternation. -/
def Regex.isAlt : Regex → Bool
  | .alt _ _ => true
  | _ => false

/-- The rightmost element of every concatenation spine is the end anchor. -/
def Regex.endsWithEol : Regex → Bool
  | .eol => true
  | .seq _ b => b.endsWithEol
  | .alt a b => a.endsWithEol && b.endsWithEol
  | _ => false

/-- Parser levels: alternation, concatenation, starrable atom, bare atom. -/
inductive PKind
  | alt
  | cat
  | atomStar
  | atom
deriving DecidableEq

/-- True when the concatenation level must stop: end of input, bar or closing
parenthesis. -/
def stopChar : List Char → Bool
  | [] => true
  | c :: _ => c == '|' || c == ')'

/-- Recursive-descent parser for the modelled regex subset; the fuel bounds
the recursion depth and is chosen large enough for the whole input.
Alternation binds loosest, a concatenation is a right-nested sequence of
starred atoms, and star is refused directly on an anchor, as Python refuses
to repeat an anchor. -/
def parseFuel : Nat → PKind → List Char → Option (Regex × List Char)
  | 0, _, _ => none
  | f + 1, PKind.alt, cs =>
    match parseFuel f PKind.cat cs with
    | none => none
    | some (r, rest) =>
      match rest with
      | '|' :: rest2 =>
        match parseFuel f PKind.alt rest2 with
        | none => none
        | some (r2, rest3) => some (Regex.alt r r2, rest3)
      | _ => some (r, rest)
  | f + 1, PKind.cat, cs =>
    if stopChar cs then some (Regex.eps, cs)
    else
      match parseFuel f PKind.atomStar cs with
      | none => none
      | some (a, rest) =>
        if stopChar rest then some (a, rest)
        else
          match parseFuel f PKind.cat rest with
          | none => none
          | some (b, rest2) => some (Regex.seq a b, rest2)
  | f + 1, PKind.atomStar, cs =>
    match parseFuel f PKind.atom cs with
    | none => none
    | some (a, rest) =>
      match rest with
      | '*' :: rest2 =>
        match a with
        | Regex.bol => none
        | Regex.eol => none
        | r => some (Regex.star r, rest2)
      | _ => some (a, rest)
  | f + 1, PKind.atom, cs =>
    match cs with
    | [] => none
    | '(' :: rest =>
      match parseFuel f PKind.alt rest with
      | none => none
      | some (r, rest2) =>
        match rest2 with
        | ')' :: rest3 => some (r, rest3)
        | _ => none
    | '^' :: rest => some (Regex.bol, rest)
    | '$' :: rest => some (Regex.eol, rest)
    | '.' :: rest => some (Regex.dot, rest)
    | ')' :: _ => none
    | '|' :: _ => none
    | '*' :: _ => none
    | '+' :: _ => none
    | '?' :: _ => none
    | '[' :: _ => none
    | ']' :: _ => none
    | '\\' :: _ => none
    | c :: rest => some (Regex.char c, rest)

/-- Compile a whole character list; trailing unconsumed input is an error. -/
def parseChars (cs : List Char) : Option Regex :=
  match parseFuel (4 * cs.length + 8) PKind.alt cs with
  | some (r, []) => some r
  | _ => none

/-- The compile step of pick_one_spec: the pattern is wrapped textually in the
two anchors before compiling, exactly as the script interpolates it. -/
def compileChars (p : List Char) : Option Regex :=
  parseChars ('^' :: p ++ ['$'])

/-- Saturation helper for star: repeatedly extend a set of reachable
positions by one more iteration of the starred body. -/
def satIter (f : Nat → List Nat) : Nat → List Nat → List Nat
  | 0, ps => ps
  | n + 1, ps => satIter f n ((ps ++ ps.flatMap f).dedup)

/-- Matching semantics over a fixed subject string: the list of end positions
a regex can reach from a start position.  The anchors consume nothing and
succeed only at position zero respectively at the end of the subject; dot
refuses a newline as Python dot does. -/
def endsFn (s : List Char) : Regex → Nat → List Nat
  | Regex.eps => fun i => [i]
  | Regex.char c => fun i =>
    match s.get? i with
    | some c2 => if c2 = c then [i + 1] else []
    | none => []
  | Regex.dot => fun i =>
    match s.get? i with
    | some c2 => if c2 = '\n' then [] else [i + 1]
    | none => []
  | Regex.bol => fun i => if i = 0 then [i] else []
  | Regex.eol => fun i => if i = s.length then [i] else []
  | Regex.seq a b => fun i => (endsFn s a i).flatMap (endsFn s b)
  | Regex.alt a b => fun i => endsFn s a i ++ endsFn s b i
  | Regex.star a => fun i => satIter (endsFn s a) (s.length + 1) [i]

/-- End positions reachable when matching a name from position zero, the way
re.match applies a compiled pattern to an AA name. -/
def matchEnds (r : Regex) (name : String) : List Nat :=
  endsFn name.data r 0

/-- Boolean truthiness of re.match: some match starting at position zero. -/
def matchB (r : Regex) (name : String) : Bool :=
  !(matchEnds r name).isEmpty

/-- PyErr distinguishes the KeyError the picker uses as its invalid-selector
signal from every other exception class a gathered task can produce. -/
inductive PyErr
  | keyError
  | other (msg : String)
deriving DecidableEq

deriving instance DecidableEq for Except

/-- str.split on the colon character, matching the Python semantics: the empty
string splits to one empty part, and every colon adds a part boundary. -/
def splitCols : List Char → List (List Char)
  | [] => [[]]
  | c :: rest =>
    let r := splitCols rest
    if c = ':' then [] :: r
    else
      match r with
      | h :: t => (c :: h) :: t
      | [] => [[c]]

/-- Modelled external API: listing AAs, either across all locations or scoped
to one location identifier. -/
def listAAs (env : Env) (locationId : Option String) : List AutoAttendant :=
  match locationId with
  | none => env.aas
  | some lid => env.aas.filter (fun aa => aa.locationId == lid)

/-- Core of pick_one_spec after scope resolution: compile the anchored
pattern, then keep the AAs of the listing whose names re.match it; a pattern
that fails to compile raises KeyError. -/
def pickCore (env : Env) (aaSpec : List Char) (locationId : Option String) :
    Except PyErr (List AutoAttendant) :=
  match compileChars aaSpec with
  | none => Except.error PyErr.keyError
  | some r => Except.ok ((listAAs env locationId).filter (fun aa => matchB r aa.name))

/-- pick_one_spec from the script: split the spec on colons; no colon searches
unscoped, one colon resolves the location by exact name (first match) and
scopes the listing, anything with more colons raises KeyError. -/
def pick_one_spec (env : Env) (spec : String) : Except PyErr (List AutoAttendant) :=
  match splitCols spec.data with
  | [aaSpec] => pickCore env aaSpec none
  | [locSpec, aaSpec] =>
    match env.locations.find? (fun loc => loc.name.data == locSpec) with
    | none => Except.error PyErr.keyError
    | some loc => pickCore env aaSpec (some loc.locationId)
  | _ => Except.error PyErr.keyError

/-- The dedup loop of pick: walk the concatenated per-spec results, keeping an
AA only when its identifier was not seen before; the growing aa_ids set is the
seen list, the growing aa_list is the recursion result. -/
def dedupGo (seen : List String) : List AutoAttendant → List AutoAttendant
  | [] => []
  | aa :: rest =>
    if aa.autoAttendantId ∈ seen then dedupGo seen rest
    else aa :: dedupGo (aa.autoAttendantId :: seen) rest

/-- The per-selector match lists that resolved successfully. -/
def okLists (results : List (Except PyErr (List AutoAttendant))) :
    List (List AutoAttendant) :=
  results.filterMap (fun r =>
    match r with
    | Except.ok l => some l
    | Except.error _ => none)

/-- A gathered result that is an exception. -/
def errResult : Except PyErr (List AutoAttendant) → Bool
  | Except.error _ => true
  | Except.ok _ => false

/-- A gathered result that is an exception other than KeyError. -/
def nonKeyErrResult : Except PyErr (List AutoAttendant) → Bool
  | Except.error (PyErr.other _) => true
  | _ => false

/-- Observable outcome of pick: the merged AA list, the exit(1) abort, or an
exception re-raised out of pick. -/
inductive PickOutcome
  | ok (aas : List AutoAttendant)
  | exitNonzero
  | raised (e : PyErr)
deriving DecidableEq

/-- Aggregation step of pick over the gathered per-spec results: if any result
is an exception, re-raise the first non-KeyError one when present and exit
nonzero otherwise; with no exception, concatenate all match lists and
deduplicate by AA identifier. -/
def pickAggregate (results : List (Except PyErr (List AutoAttendant))) : PickOutcome :=
  match results.find? errResult with
  | some _ =>
    match results.find? nonKeyErrResult with
    | some (Except.error e) => PickOutcome.raised e
    | _ => PickOutcome.exitNonzero
  | none => PickOutcome.ok (dedupGo [] (okLists results).flatten)

/-- pick from the script: resolve every spec (gather preserves spec order)
and aggregate the results. -/
def pick (env : Env) (specs : List String) : PickOutcome :=
  pickAggregate (specs.map (pick_one_spec env))

/-- Cache state of AAPicker: the optional cached location list. -/
structure PickerState where
  locationsCache : Option (List Location)
deriving DecidableEq

/-- Python truthiness of the cache field: None and the empty list are falsy. -/
def cacheTruthy : Option (List Location) → Bool
  | none => false
  | some locs => !locs.isEmpty

/-- The locations accessor of AAPicker, under its lock: when the cache is
falsy, fetch the remote listing and store it; return the cache contents and
the number of remote listing calls this access issued. -/
def locationsCall (env : Env) (st : PickerState) :
    List Location × PickerState × Nat :=
  if cacheTruthy st.locationsCache then
    (st.locationsCache.getD [], st, 0)
  else
    (env.locations, ⟨some env.locations⟩, 1)

/-- A run of successive accessor calls, returning the final state and the
total number of remote listing calls issued. -/
def runCalls (env : Env) : Nat → PickerState → PickerState × Nat
  | 0, st => (st, 0)
  | n + 1, st =>
    let r := locationsCall env st
    let rest := runCalls env n r.2.1
    (rest.1, r.2.2 + rest.2)

/-- The outcome text of one AA in the final report: ok, or the error text. -/
def outcomeStr : Except String Unit → String
  | Except.ok _ => "ok"
  | Except.error m => m

/-- One line of the final batch report. -/
def reportLine (aa : AutoAttendant) (r : Except String Unit) : String :=
  aa_str aa ++ ": " ++ outcomeStr r

/-- The final report loop of main: zip the AA batch with the gathered results
and print one line per AA. -/
def reportLines (aaList : List AutoAttendant) (results : List (Except String Unit)) :
    List String :=
  (aaList.zip results).map (fun p => reportLine p.1 p.2)

/-- Concrete AA used by the concrete evaluations below. -/
def aaCx : AutoAttendant := ⟨"aa-id-1", "loc-id-1", "SiteA", "Reception"⟩

/-- Details whose business menu is already custom over asset "old.wav". -/
def detailsCustomOld : AADetails :=
  ⟨⟨Greeting.custom, some ⟨"old.wav", MediaFileType.wav⟩⟩, ⟨Greeting.default, none⟩⟩

/-- Details whose business menu is default with no uploaded asset. -/
def detailsDefaultNone : AADetails :=
  ⟨⟨Greeting.default, none⟩, ⟨Greeting.default, none⟩⟩

/-- Details whose business menu is default but already has asset "old.wav". -/
def detailsDefaultOld : AADetails :=
  ⟨⟨Greeting.default, some ⟨"old.wav", MediaFileType.wav⟩⟩, ⟨Greeting.default, none⟩⟩

/-- Concrete AA named aa10, used to exhibit the anchoring escape. -/
def aaTen : AutoAttendant := ⟨"id10", "loc1", "SiteA", "aa10"⟩

/-- Directory containing only the AA named aa10. -/
def envAlt : Env := ⟨[], [aaTen]⟩

/-- Concrete AA named aa1 in location SiteA. -/
def aaOne : AutoAttendant := ⟨"id1", "loc1", "SiteA", "aa1"⟩

/-- A second AA with a distinct identifier. -/
def aaTwo : AutoAttendant := ⟨"id2", "loc1", "SiteA", "aa2"⟩

/-- Directory with one location SiteA holding the AA named aa1. -/
def envOne : Env := ⟨[⟨"loc1", "SiteA"⟩], [aaOne]⟩

/-- Directory whose remote location list is empty. -/
def envEmpty : Env := ⟨[], []⟩

/-- Modelled from the spec: the property side of full anchored matching used
to state claim C5 — the pattern alone, compiled without the textual anchor
wrapping, must consume the whole name starting at position zero. -/
def specFullMatch (pattern : String) (name : String) : Bool :=
  match parseChars pattern.data with
  | some r => decide (name.data.length ∈ endsFn name.data r 0)
  | none => false

/-- The compiled form of the anchored pattern aa1. -/
def rAa1 : Regex :=
  Regex.seq Regex.bol (Regex.seq (Regex.char 'a')
    (Regex.seq (Regex.char 'a') (Regex.seq (Regex.char '1') Regex.eol)))

/-! Theorems.  Every claim of the specification is settled below against the
definitions above; helper lemmas come first. -/

/-- Claim C10 (confirmed): with the test flag set, update_aa issues no mutating
remote calls at all, for every AA, details snapshot, menu, greeting and
reupload flag; only the read-only details fetch and diagnostics remain. -/
theorem update_aa_test_no_mutations (orgId : String) (aa : AutoAttendant)
    (details : AADetails) (menu greeting : String) (reUpload : Bool) :
    update_aa orgId aa details menu greeting true reUpload = [] := by
  simp only [update_aa]
  split_ifs <;> simp

/-- Claim C3 (confirmed): reconciliation is a remote no-op when the desired
state already matches: desired "default" with current mode default, or a
desired custom file whose basename equals the current asset name with current
mode custom; with test and reupload off, update_aa issues zero upload and zero
update calls. -/
theorem update_aa_noop_when_matching (orgId : String) (aa : AutoAttendant)
    (details : AADetails) (menu greeting : String)
    (h : (greeting = "default" ∧ (menuOf details menu).greeting = Greeting.default) ∨
         (greeting ≠ "default" ∧ (menuOf details menu).greeting = Greeting.custom ∧
           ∃ af, (menuOf details menu).audioFile = some af ∧ af.name = basename greeting)) :
    update_aa orgId aa details menu greeting false false = [] := by
  rcases h with ⟨h1, h2⟩ | ⟨h1, h2, af, haf, hname⟩
  · simp only [update_aa]
    simp [h1, h2]
  · simp only [update_aa]
    simp [beq_iff_eq, h1, h2, haf, hname]

/-- Claim C9 (confirmed): when the current menu already has an uploaded asset
named like the desired file's basename but the mode is still default, update_aa
issues zero upload calls and exactly one update call whose settings switch the
menu to custom with the asset reference (basename, wav). -/
theorem update_aa_skip_upload_set_custom (orgId : String) (aa : AutoAttendant)
    (details : AADetails) (menu greeting : String)
    (hg : greeting ≠ "default")
    (hmode : (menuOf details menu).greeting = Greeting.default)
    (af : AutoAttendantAudioFile)
    (haf : (menuOf details menu).audioFile = some af)
    (hname : af.name = basename greeting) :
    update_aa orgId aa details menu greeting false false =
      [RemoteCall.update orgId aa.locationId aa.autoAttendantId
        (putMenu details menu
          { menuOf details menu with
            greeting := Greeting.custom
            audioFile := some ⟨basename greeting, MediaFileType.wav⟩ })] := by
  simp only [update_aa]
  simp [beq_iff_eq, hg, hmode, haf, hname]

/-- Claim C1 (corrected): reconciling to a custom file whose basename differs
from the current asset issues exactly one upload call; it is followed by
exactly one update call when the current mode is default, but by no update
call when the current mode is already custom, because update_aa returns right
after the upload in that case. -/
theorem update_aa_upload_then_maybe_update (orgId : String) (aa : AutoAttendant)
    (details : AADetails) (menu greeting : String)
    (hg : greeting ≠ "default")
    (hdiff : ∀ af, (menuOf details menu).audioFile = some af → af.name ≠ basename greeting) :
    update_aa orgId aa details menu greeting false false =
      RemoteCall.upload orgId aa.locationId aa.autoAttendantId (menu == "business") greeting ::
      (if (menuOf details menu).greeting = Greeting.custom then []
       else [RemoteCall.update orgId aa.locationId aa.autoAttendantId
              (putMenu details menu
                { menuOf details menu with
                  greeting := Greeting.custom
                  audioFile := some ⟨basename greeting, MediaFileType.wav⟩ })]) := by
  simp only [update_aa]
  cases haf : (menuOf details menu).audioFile with
  | none =>
    by_cases hc : (menuOf details menu).greeting = Greeting.custom <;>
      simp [beq_iff_eq, hg, haf, hc]
  | some af =>
    have hne := hdiff af haf
    by_cases hc : (menuOf details menu).greeting = Greeting.custom <;>
      simp [beq_iff_eq, hg, haf, hne, hc]

/-- Claim C1 counterexample: with the business menu already in custom mode over
asset "old.wav", reconciling to "new.wav" issues the upload and then zero
update calls, refuting "exactly one upload followed by exactly one update
regardless of the current greeting mode". -/
theorem update_aa_custom_mode_skips_update_cx :
    update_aa "org" aaCx detailsCustomOld "business" "new.wav" false false =
      [RemoteCall.upload "org" "loc-id-1" "aa-id-1" true "new.wav"] := by
  decide

/-- Claim C1 witness: concrete run of the amended statement on a default-mode
menu with no uploaded asset. -/
theorem update_aa_upload_then_maybe_update_witness :
    update_aa "org" aaCx detailsDefaultNone "business" "greetings/new.wav" false false =
      RemoteCall.upload "org" "loc-id-1" "aa-id-1" ("business" == "business") "greetings/new.wav" ::
      (if (menuOf detailsDefaultNone "business").greeting = Greeting.custom then []
       else [RemoteCall.update "org" "loc-id-1" "aa-id-1"
              (putMenu detailsDefaultNone "business"
                { menuOf detailsDefaultNone "business" with
                  greeting := Greeting.custom
                  audioFile := some ⟨basename "greetings/new.wav", MediaFileType.wav⟩ })]) :=
  update_aa_upload_then_maybe_update "org" aaCx detailsDefaultNone "business" "greetings/new.wav"
    (by decide)
    (by
      intro af h
      rw [show (menuOf detailsDefaultNone "business").audioFile = none from rfl] at h
      exact Option.noConfusion h)

/-- Claim C3 witness: concrete no-op run, custom menu already pointing at the
basename of the desired file. -/
theorem update_aa_noop_when_matching_witness :
    update_aa "org" aaCx detailsCustomOld "business" "greetings/old.wav" false false = [] :=
  update_aa_noop_when_matching "org" aaCx detailsCustomOld "business" "greetings/old.wav"
    (Or.inr ⟨by decide, rfl, ⟨⟨"old.wav", MediaFileType.wav⟩, rfl, by decide⟩⟩)

/-- Claim C9 witness: concrete run that skips the upload and issues the single
mode-setting update. -/
theorem update_aa_skip_upload_set_custom_witness :
    update_aa "org" aaCx detailsDefaultOld "business" "greetings/old.wav" false false =
      [RemoteCall.update "org" "loc-id-1" "aa-id-1"
        (putMenu detailsDefaultOld "business"
          { menuOf detailsDefaultOld "business" with
            greeting := Greeting.custom
            audioFile := some ⟨basename "greetings/old.wav", MediaFileType.wav⟩ })] :=
  update_aa_skip_upload_set_custom "org" aaCx detailsDefaultOld "business" "greetings/old.wav"
    (by decide) rfl ⟨"old.wav", MediaFileType.wav⟩ rfl (by decide)

/-- Zipping a list with a map over itself pairs each element with its image. -/
lemma zip_map_self {α β : Type} (f : α → β) (l : List α) :
    l.zip (l.map f) = l.map (fun a => (a, f a)) := by
  induction l with
  | nil => rfl
  | cons a t ih => simp [ih]

/-- Claim C8 (confirmed): in the batch, every AA's outcome is a function of
that AA alone: the report has exactly one line per targeted AA, and the line
at each index is determined by that AA and its own captured outcome, so one
AA's failure never changes any other line. -/
theorem batch_report_isolated (aaList : List AutoAttendant)
    (f : AutoAttendant → Except String Unit) :
    (reportLines aaList (aaList.map f)).length = aaList.length ∧
    ∀ i, (reportLines aaList (aaList.map f)).get? i =
      (aaList.get? i).map (fun aa => reportLine aa (f aa)) := by
  have h : reportLines aaList (aaList.map f) =
      aaList.map (fun aa => reportLine aa (f aa)) := by
    simp [reportLines, zip_map_self]
  constructor
  · simp [h]
  · intro i
    simp [h]

/-- A truthy cache is returned as is, with no remote call and no state change. -/
lemma locationsCall_cached (env : Env) (st : PickerState)
    (h : cacheTruthy st.locationsCache = true) :
    locationsCall env st = (st.locationsCache.getD [], st, 0) := by
  simp [locationsCall, h]

/-- Any run starting from a truthy cache issues zero remote calls. -/
lemma runCalls_cached (env : Env) (n : Nat) (st : PickerState)
    (h : cacheTruthy st.locationsCache = true) :
    runCalls env n st = (st, 0) := by
  induction n with
  | zero => rfl
  | succ n ih => simp [runCalls, locationsCall_cached env st h, ih]

/-- Claim C4 (corrected): provided the remote listing is non-empty, a run of
any positive number of accessor calls fetches exactly once, leaves the fetched
list in the cache, and any later call on the populated cache returns the
cached list without fetching.  An empty listing is falsy and is refetched on
every access; see the counterexample. -/
theorem locations_fetch_once_nonempty (env : Env) (h : env.locations ≠ []) (n : Nat) :
    (runCalls env (n + 1) ⟨none⟩).2 = 1 ∧
    (runCalls env (n + 1) ⟨none⟩).1 = ⟨some env.locations⟩ ∧
    ∀ st : PickerState, st.locationsCache = some env.locations →
      locationsCall env st = (env.locations, st, 0) := by
  have htr : cacheTruthy (some env.locations) = true := by
    simp [cacheTruthy, h]
  have h1 : locationsCall env ⟨none⟩ = (env.locations, ⟨some env.locations⟩, 1) := by
    simp [locationsCall, cacheTruthy]
  have h2 := runCalls_cached env n ⟨some env.locations⟩ htr
  refine ⟨?_, ?_, ?_⟩
  · simp [runCalls, h1, h2]
  · simp [runCalls, h1, h2]
  · intro st hst
    rw [locationsCall_cached env st (by rw [hst]; exact htr)]
    simp [hst]

/-- Claim C4 counterexample: with an empty remote location list, the first
call populates the cache with the empty list, yet the second call fetches
again: two accesses issue two remote listing calls, refuting
fetched-at-most-once per run. -/
theorem locations_empty_refetch_cx :
    (runCalls envEmpty 2 ⟨none⟩).2 = 2 ∧
    (runCalls envEmpty 1 ⟨none⟩).1 = ⟨some []⟩ := by
  decide

/-- Claim C4 witness: three accessor calls against a non-empty directory issue
exactly one remote listing call. -/
theorem locations_fetch_once_nonempty_witness :
    (runCalls envOne 3 ⟨none⟩).2 = 1 :=
  (locations_fetch_once_nonempty envOne (by decide) 2).1

/-- Claim C2 (corrected): the aggregation of pick exits nonzero exactly when
some selector failed with KeyError and no selector failed with any other
exception class, regardless of how many selectors resolved successfully; a
non-KeyError failure is re-raised instead of exiting. -/
theorem pick_abort_iff (results : List (Except PyErr (List AutoAttendant))) :
    pickAggregate results = PickOutcome.exitNonzero ↔
      (Except.error PyErr.keyError ∈ results ∧
        ∀ m, Except.error (PyErr.other m) ∉ results) := by
  unfold pickAggregate
  cases herr : results.find? errResult with
  | none =>
    simp only [herr]
    constructor
    · intro hcon
      exact absurd hcon (by simp)
    · rintro ⟨hk, -⟩
      have := List.find?_eq_none.mp herr _ hk
      simp [errResult] at this
  | some e0 =>
    have he0 : errResult e0 = true := List.find?_some herr
    have he0mem : e0 ∈ results := List.mem_of_find?_eq_some herr
    cases hnk : results.find? nonKeyErrResult with
    | none =>
      simp only [herr, hnk]
      constructor
      · intro _
        constructor
        · cases e0 with
          | ok l => simp [errResult] at he0
          | error e =>
            cases e with
            | keyError => exact he0mem
            | other m =>
              have := List.find?_eq_none.mp hnk _ he0mem
              simp [nonKeyErrResult] at this
        · intro m hm
          have := List.find?_eq_none.mp hnk _ hm
          simp [nonKeyErrResult] at this
      · intro _
        trivial
    | some x =>
      have hx : nonKeyErrResult x = true := List.find?_some hnk
      have hxmem : x ∈ results := List.mem_of_find?_eq_some hnk
      cases x with
      | ok l => simp [nonKeyErrResult] at hx
      | error e =>
        cases e with
        | keyError => simp [nonKeyErrResult] at hx
        | other m =>
          simp only [herr, hnk]
          constructor
          · intro hcon
            exact absurd hcon (by simp)
          · rintro ⟨-, hno⟩
            exact absurd hxmem (hno m)

/-- Claim C2 counterexample: one selector resolves successfully and the other
is invalid, yet pick aborts with exit(1) instead of returning the merged
match list of the successful selector. -/
theorem pick_aborts_despite_success_cx :
    pick envOne ["aa1", "a:b:c"] = PickOutcome.exitNonzero ∧
    pick_one_spec envOne "aa1" = Except.ok [aaOne] := by
  decide

/-- Claim C2 witness: concrete aggregation with one success and one KeyError
exits nonzero. -/
theorem pick_abort_iff_witness :
    pickAggregate [Except.ok [aaOne], Except.error PyErr.keyError] =
      PickOutcome.exitNonzero :=
  (pick_abort_iff _).mpr ⟨by decide, by intro m hm; simp at hm⟩

/-- Mapping every list into a success and collecting the successes is the
identity. -/
lemma okLists_map_ok (ls : List (List AutoAttendant)) :
    okLists (ls.map Except.ok) = ls := by
  induction ls with
  | nil => rfl
  | cons l t ih =>
    simp only [okLists, List.map_cons, List.filterMap_cons] at ih ⊢
    rw [ih]

/-- Every element the dedup loop keeps comes from the input list and carries
an identifier outside the seen set. -/
lemma dedupGo_mem {seen : List String} {l : List AutoAttendant} {aa : AutoAttendant}
    (h : aa ∈ dedupGo seen l) : aa ∈ l ∧ aa.autoAttendantId ∉ seen := by
  induction l generalizing seen with
  | nil => simp [dedupGo] at h
  | cons b t ih =>
    simp only [dedupGo] at h
    by_cases hb : b.autoAttendantId ∈ seen
    · rw [if_pos hb] at h
      have hr := ih h
      exact ⟨List.mem_cons_of_mem _ hr.1, hr.2⟩
    · rw [if_neg hb] at h
      rcases List.mem_cons.mp h with rfl | h2
      · exact ⟨List.mem_cons_self _ _, hb⟩
      · have hr := ih h2
        exact ⟨List.mem_cons_of_mem _ hr.1,
          fun hs => hr.2 (List.mem_cons_of_mem _ hs)⟩

/-- The identifiers the dedup loop emits are pairwise distinct. -/
lemma dedupGo_nodup (seen : List String) (l : List AutoAttendant) :
    ((dedupGo seen l).map (fun aa => aa.autoAttendantId)).Nodup := by
  induction l generalizing seen with
  | nil => simp [dedupGo]
  | cons b t ih =>
    simp only [dedupGo]
    by_cases hb : b.autoAttendantId ∈ seen
    · rw [if_pos hb]
      exact ih seen
    · rw [if_neg hb]
      simp only [List.map_cons, List.nodup_cons]
      refine ⟨?_, ih _⟩
      intro hmem
      rcases List.mem_map.mp hmem with ⟨c, hc, hcid⟩
      have hcs := (dedupGo_mem hc).2
      apply hcs
      rw [hcid]
      exact List.mem_cons_self _ _

/-- Each kept AA is the first occurrence of its identifier in the input. -/
lemma dedupGo_first {seen : List String} {l : List AutoAttendant} {aa : AutoAttendant}
    (h : aa ∈ dedupGo seen l) :
    l.find? (fun b => b.autoAttendantId == aa.autoAttendantId) = some aa := by
  induction l generalizing seen with
  | nil => simp [dedupGo] at h
  | cons b t ih =>
    simp only [dedupGo] at h
    by_cases hb : b.autoAttendantId ∈ seen
    · rw [if_pos hb] at h
      have hnotin := (dedupGo_mem h).2
      have hne : (b.autoAttendantId == aa.autoAttendantId) = false := by
        simp only [beq_eq_false_iff_ne, ne_eq]
        intro he
        exact hnotin (he ▸ hb)
      rw [List.find?_cons_of_neg _ (by simp [hne])]
      exact ih h
    · rw [if_neg hb] at h
      rcases List.mem_cons.mp h with rfl | h2
      · rw [List.find?_cons_of_pos _ (by simp)]
      · have hnotin := (dedupGo_mem h2).2
        have hne : (b.autoAttendantId == aa.autoAttendantId) = false := by
          simp only [beq_eq_false_iff_ne, ne_eq]
          intro he
          apply hnotin
          rw [← he]
          exact List.mem_cons_self _ _
        rw [List.find?_cons_of_neg _ (by simp [hne])]
        exact ih h2

/-- Every input identifier is represented in the dedup output unless already
seen. -/
lemma dedupGo_cover (seen : List String) {l : List AutoAttendant} {aa : AutoAttendant}
    (h : aa ∈ l) :
    aa.autoAttendantId ∈ seen ∨
      ∃ b ∈ dedupGo seen l, b.autoAttendantId = aa.autoAttendantId := by
  induction l generalizing seen with
  | nil => simp at h
  | cons c t ih =>
    simp only [dedupGo]
    by_cases hc : c.autoAttendantId ∈ seen
    · rw [if_pos hc]
      rcases List.mem_cons.mp h with rfl | h2
      · exact Or.inl hc
      · exact ih seen h2
    · rw [if_neg hc]
      rcases List.mem_cons.mp h with rfl | h2
      · exact Or.inr ⟨aa, List.mem_cons_self _ _, rfl⟩
      · rcases ih (c.autoAttendantId :: seen) h2 with hs | ⟨b, hb, hbid⟩
        · rcases List.mem_cons.mp hs with he | hs2
          · exact Or.inr ⟨c, List.mem_cons_self _ _, he.symm⟩
          · exact Or.inl hs2
        · exact Or.inr ⟨b, List.mem_cons_of_mem _ hb, hbid⟩

/-- Claim C7 (confirmed): when every selector resolves successfully, pick
returns the concatenated match lists deduplicated by AA identifier: the
result has pairwise distinct identifiers, each returned AA is the first
occurrence of its identifier in the concatenation taken in selector order,
and every concatenated AA is represented; the aggregation is a pure function
of the per-selector results, so the same overlapping results always give the
same deduplicated list. -/
theorem pick_dedup_by_id (ls : List (List AutoAttendant)) :
    pickAggregate (ls.map Except.ok) = PickOutcome.ok (dedupGo [] ls.flatten) ∧
    ((dedupGo [] ls.flatten).map (fun aa => aa.autoAttendantId)).Nodup ∧
    (∀ aa ∈ dedupGo [] ls.flatten,
      ls.flatten.find? (fun b => b.autoAttendantId == aa.autoAttendantId) = some aa) ∧
    (∀ aa ∈ ls.flatten, ∃ b ∈ dedupGo [] ls.flatten,
      b.autoAttendantId = aa.autoAttendantId) := by
  refine ⟨?_, dedupGo_nodup [] ls.flatten, fun aa h => dedupGo_first h, fun aa h => ?_⟩
  · unfold pickAggregate
    have hnone : (ls.map Except.ok).find? errResult = none := by
      rw [List.find?_eq_none]
      intro x hx
      rcases List.mem_map.mp hx with ⟨l, -, rfl⟩
      simp [errResult]
    rw [hnone, okLists_map_ok]
  · rcases dedupGo_cover [] h with hs | hb
    · simp at hs
    · exact hb

/-- Claim C7 witness: concrete overlapping results are deduplicated keeping
the first occurrence. -/
theorem pick_dedup_by_id_witness :
    pickAggregate ([[aaOne, aaTwo], [aaOne]].map Except.ok) =
      PickOutcome.ok [aaOne, aaTwo] ∧
    [[aaOne, aaTwo], [aaOne]].flatten.find?
      (fun b => b.autoAttendantId == aaOne.autoAttendantId) = some aaOne :=
  ⟨((pick_dedup_by_id [[aaOne, aaTwo], [aaOne]]).1).trans (by decide),
   (pick_dedup_by_id [[aaOne, aaTwo], [aaOne]]).2.2.1 aaOne (by decide)⟩

lemma parseFuel_suffix :
    ∀ (f : Nat) (k : PKind) (cs : List Char) (r : Regex) (rest : List Char),
      parseFuel f k cs = some (r, rest) → rest <:+ cs := by
  intro f
  induction f with
  | zero =>
    intro k cs r rest h
    simp [parseFuel] at h
  | succ f ih =>
    intro k cs r rest h
    cases k with
    | alt =>
      simp only [parseFuel] at h
      split at h
      · exact Option.noConfusion h
      · rename_i r1 rest1 heq
        split at h
        · split at h
          · exact Option.noConfusion h
          · rename_i r2 rest3 heq2
            injection h with h1
            injection h1 with h2 h3
            subst h3
            exact (ih _ _ _ _ heq2).trans ((List.suffix_cons _ _).trans (ih _ _ _ _ heq))
        · injection h with h1
          injection h1 with h2 h3
          subst h3
          exact ih _ _ _ _ heq
    | cat =>
      simp only [parseFuel] at h
      split at h
      · injection h with h1
        injection h1 with h2 h3
        subst h3
        exact List.suffix_refl _
      · split at h
        · exact Option.noConfusion h
        · rename_i a rest1 heq
          split at h
          · injection h with h1
            injection h1 with h2 h3
            subst h3
            exact ih _ _ _ _ heq
          · split at h
            · exact Option.noConfusion h
            · rename_i b rest2 heq2
              injection h with h1
              injection h1 with h2 h3
              subst h3
              exact (ih _ _ _ _ heq2).trans (ih _ _ _ _ heq)
    | atomStar =>
      simp only [parseFuel] at h
      split at h
      · exact Option.noConfusion h
      · rename_i a rest1 heq
        split at h
        · split at h <;>
            first
              | exact Option.noConfusion h
              | (injection h with h1
                 injection h1 with h2 h3
                 subst h3
                 exact (List.suffix_cons _ _).trans (ih _ _ _ _ heq))
        · injection h with h1
          injection h1 with h2 h3
          subst h3
          exact ih _ _ _ _ heq
    | atom =>
      simp only [parseFuel] at h
      split at h
      · exact Option.noConfusion h
      · split at h
        · exact Option.noConfusion h
        · rename_i r1 rest2 heq
          split at h
          · injection h with h1
            injection h1 with h2 h3
            subst h3
            exact (List.suffix_cons _ _).trans ((ih _ _ _ _ heq).trans (List.suffix_cons _ _))
          · exact Option.noConfusion h
      all_goals
        first
          | exact Option.noConfusion h
          | (injection h with h1
             injection h1 with h2 h3
             subst h3
             exact List.suffix_cons _ _)

lemma atom_last_dollar (f : Nat) (cs : List Char) (a : Regex)
    (h : parseFuel f PKind.atom cs = some (a, []))
    (hlast : cs.getLast? = some '$') : a = Regex.eol := by
  cases f with
  | zero => simp [parseFuel] at h
  | succ f =>
    simp only [parseFuel] at h
    split at h
    · exact Option.noConfusion h
    · split at h
      · exact Option.noConfusion h
      · rename_i r1 rest2 heq
        split at h
        · injection h with h1
          injection h1 with h2 h3
          subst h3
          obtain ⟨t, rfl⟩ := parseFuel_suffix f PKind.alt _ _ _ heq
          rw [show ('(' :: (t ++ [')'])) = ('(' :: t) ++ [')'] from rfl,
            List.getLast?_concat] at hlast
          exact absurd hlast (by decide)
        · exact Option.noConfusion h
    · injection h with h1
      injection h1 with h2 h3
      subst h3
      exact absurd hlast (by decide)
    · injection h with h1
      injection h1 with h2 h3
      exact h2.symm
    · injection h with h1
      injection h1 with h2 h3
      subst h3
      exact absurd hlast (by decide)
    · exact Option.noConfusion h
    · exact Option.noConfusion h
    · exact Option.noConfusion h
    · exact Option.noConfusion h
    · exact Option.noConfusion h
    · exact Option.noConfusion h
    · exact Option.noConfusion h
    · exact Option.noConfusion h
    · rename_i c rest hne
      injection h with h1
      injection h1 with h2 h3
      subst h3
      simp at hlast
      subst hlast
      simp_all

lemma atomStar_last_dollar (f : Nat) (cs : List Char) (a : Regex)
    (h : parseFuel f PKind.atomStar cs = some (a, []))
    (hlast : cs.getLast? = some '$') : a = Regex.eol := by
  cases f with
  | zero => simp [parseFuel] at h
  | succ f =>
    simp only [parseFuel] at h
    split at h
    · exact Option.noConfusion h
    · rename_i a1 rest1 heq
      split at h
      · split at h <;>
          first
            | exact Option.noConfusion h
            | (injection h with h1
               injection h1 with h2 h3
               subst h3
               obtain ⟨t, rfl⟩ := parseFuel_suffix f PKind.atom _ _ _ heq
               rw [List.getLast?_concat] at hlast
               exact absurd hlast (by decide))
      · injection h with h1
        injection h1 with h2 h3
        subst h2
        subst h3
        exact atom_last_dollar f cs _ heq hlast

lemma cat_last_dollar :
    ∀ (f : Nat) (cs : List Char) (r : Regex),
      parseFuel f PKind.cat cs = some (r, []) →
      cs.getLast? = some '$' → r.endsWithEol = true := by
  intro f
  induction f with
  | zero =>
    intro cs r h _
    simp [parseFuel] at h
  | succ f ih =>
    intro cs r h hlast
    simp only [parseFuel] at h
    split at h
    · injection h with h1
      injection h1 with h2 h3
      subst h3
      simp at hlast
    · split at h
      · exact Option.noConfusion h
      · rename_i hstop a rest1 heq
        split at h
        · injection h with h1
          injection h1 with h2 h3
          subst h2
          subst h3
          have he := atomStar_last_dollar f cs _ heq hlast
          subst he
          rfl
        · rename_i hstop2
          split at h
          · exact Option.noConfusion h
          · rename_i b rest2 heq2
            injection h with h1
            injection h1 with h2 h3
            subst h2
            subst h3
            have hrne : rest1 ≠ [] := by
              intro hn
              rw [hn] at hstop2
              exact hstop2 rfl
            have hr1 : rest1.getLast? = some '$' := by
              obtain ⟨t, rfl⟩ := parseFuel_suffix f PKind.atomStar _ _ _ heq
              rw [List.getLast?_append_of_ne_nil t hrne] at hlast
              exact hlast
            have hb := ih rest1 b heq2 hr1
            simp [Regex.endsWithEol, hb]

lemma alt_root_endsWithEol (f : Nat) (cs : List Char) (r : Regex)
    (h : parseFuel (f + 1) PKind.alt cs = some (r, []))
    (hna : r.isAlt = false) (hlast : cs.getLast? = some '$') :
    r.endsWithEol = true := by
  simp only [parseFuel] at h
  split at h
  · exact Option.noConfusion h
  · rename_i r1 rest1 heq
    split at h
    · split at h
      · exact Option.noConfusion h
      · rename_i r2 rest3 heq2
        injection h with h1
        injection h1 with h2 h3
        subst h2
        simp [Regex.isAlt] at hna
    · injection h with h1
      injection h1 with h2 h3
      subst h2
      subst h3
      exact cat_last_dollar f cs _ heq hlast

lemma compile_not_alt_endsWithEol (p : List Char) (r : Regex)
    (h : compileChars p = some r) (hna : r.isAlt = false) :
    r.endsWithEol = true := by
  unfold compileChars parseChars at h
  split at h
  · rename_i r0 heq
    injection h with h1
    subst h1
    have hlast : ('^' :: p ++ ['$']).getLast? = some '$' := by
      rw [show ('^' :: p ++ ['$']) = ('^' :: p) ++ ['$'] from rfl, List.getLast?_concat]
    rw [show (4 * ('^' :: p ++ ['$']).length + 8) =
      (4 * ('^' :: p ++ ['$']).length + 7) + 1 from rfl] at heq
    exact alt_root_endsWithEol _ _ _ heq hna hlast
  · exact Option.noConfusion h

lemma endsWithEol_all_length (s : List Char) :
    ∀ (r : Regex), r.endsWithEol = true → ∀ i j, j ∈ endsFn s r i → j = s.length := by
  intro r
  induction r with
  | eps => intro h; simp [Regex.endsWithEol] at h
  | char c => intro h; simp [Regex.endsWithEol] at h
  | dot => intro h; simp [Regex.endsWithEol] at h
  | bol => intro h; simp [Regex.endsWithEol] at h
  | star a iha => intro h; simp [Regex.endsWithEol] at h
  | eol =>
    intro _ i j hj
    simp only [endsFn] at hj
    split at hj
    · rename_i hi
      simp at hj
      omega
    · simp at hj
  | seq a b iha ihb =>
    intro h i j hj
    simp only [Regex.endsWithEol] at h
    simp only [endsFn, List.mem_flatMap] at hj
    obtain ⟨k, -, hk⟩ := hj
    exact ihb h k j hk
  | alt a b iha ihb =>
    intro h i j hj
    simp only [Regex.endsWithEol, Bool.and_eq_true] at h
    simp only [endsFn, List.mem_append] at hj
    rcases hj with hj | hj
    · exact iha h.1 i j hj
    · exact ihb h.2 i j hj

lemma pickCore_ok (env : Env) (p : List Char) (locId : Option String)
    (aas : List AutoAttendant) (h : pickCore env p locId = Except.ok aas) :
    ∃ r, compileChars p = some r ∧
      aas = (listAAs env locId).filter (fun aa => matchB r aa.name) := by
  unfold pickCore at h
  split at h
  · exact Except.noConfusion h
  · rename_i r heq
    injection h with h1
    exact ⟨r, heq, h1.symm⟩

lemma matchB_full (p : List Char) (r : Regex) (name : String)
    (hc : compileChars p = some r) (hna : r.isAlt = false)
    (hm : matchB r name = true) :
    name.data.length ∈ matchEnds r name ∧
      ∀ j ∈ matchEnds r name, j = name.data.length := by
  have hwe := compile_not_alt_endsWithEol p r hc hna
  have hall : ∀ j ∈ matchEnds r name, j = name.data.length := by
    intro j hj
    exact endsWithEol_all_length name.data r hwe 0 j hj
  refine ⟨?_, hall⟩
  have hne : matchEnds r name ≠ [] := by
    unfold matchB at hm
    simpa using hm
  obtain ⟨j, hj⟩ := List.exists_mem_of_ne_nil _ hne
  have := hall j hj
  rwa [this] at hj

/-- Claim C5 (corrected): every AA returned by pick_one_spec has a name that
re.match-es the compiled anchored pattern from position zero; when the
compiled regex is not a top-level alternation, every such match consumes the
whole name, so the match is full.  A pattern with a top-level alternation
escapes the textual anchors; see the counterexample. -/
theorem pick_one_spec_anchored (env : Env) (spec : String) (aas : List AutoAttendant)
    (h : pick_one_spec env spec = Except.ok aas) :
    ∃ p r, (splitCols spec.data = [p] ∨ ∃ l, splitCols spec.data = [l, p]) ∧
      compileChars p = some r ∧
      ∀ aa ∈ aas, matchB r aa.name = true ∧
        (r.isAlt = false →
          aa.name.data.length ∈ matchEnds r aa.name ∧
          ∀ j ∈ matchEnds r aa.name, j = aa.name.data.length) := by
  unfold pick_one_spec at h
  split at h
  · rename_i p heq
    obtain ⟨r, hc, rfl⟩ := pickCore_ok _ _ _ _ h
    refine ⟨p, r, Or.inl heq, hc, ?_⟩
    intro aa haa
    have hm := (List.mem_filter.mp haa).2
    exact ⟨hm, fun hna => matchB_full p r aa.name hc hna hm⟩
  · rename_i locSpec p heq
    split at h
    · exact Except.noConfusion h
    · rename_i loc hfind
      obtain ⟨r, hc, rfl⟩ := pickCore_ok _ _ _ _ h
      refine ⟨p, r, Or.inr ⟨locSpec, heq⟩, hc, ?_⟩
      intro aa haa
      have hm := (List.mem_filter.mp haa).2
      exact ⟨hm, fun hna => matchB_full p r aa.name hc hna hm⟩
  · exact Except.noConfusion h

/-- Claim C5 counterexample: the selector aa1|bb is valid and returns the AA
named aa10, whose name does not fully match the pattern aa1|bb as an anchored
regular expression: the textual wrapping makes the anchors bind to the
alternation branches. -/
theorem pick_one_spec_alternation_escapes_cx :
    pick_one_spec envAlt "aa1|bb" = Except.ok [aaTen] ∧
    specFullMatch "aa1|bb" "aa10" = false := by
  decide

/-- Claim C5 witness: the selector aa1 returns the AA named aa1, the compiled
regex is alternation-free and every match consumes the whole name. -/
theorem pick_one_spec_anchored_witness :
    pick_one_spec envOne "aa1" = Except.ok [aaOne] ∧
    (∃ p r,
      (splitCols ("aa1" : String).data = [p] ∨
        ∃ l, splitCols ("aa1" : String).data = [l, p]) ∧
      compileChars p = some r ∧
      ∀ aa ∈ [aaOne], matchB r aa.name = true ∧
        (r.isAlt = false →
          aa.name.data.length ∈ matchEnds r aa.name ∧
          ∀ j ∈ matchEnds r aa.name, j = aa.name.data.length)) :=
  ⟨by decide, pick_one_spec_anchored envOne "aa1" [aaOne] (by decide)⟩

/-- Claim C6 (confirmed): a selector without colon searches all locations; a
selector with exactly one colon is scoped to the first location whose name
equals the prefix and raises KeyError when no location matches; a selector
with two or more colons always raises KeyError. -/
theorem pick_one_spec_colon_scoping (env : Env) (spec : String) :
    (∀ p, splitCols spec.data = [p] → ∀ r, compileChars p = some r →
      pick_one_spec env spec =
        Except.ok ((listAAs env none).filter (fun aa => matchB r aa.name))) ∧
    (∀ l p, splitCols spec.data = [l, p] →
      (env.locations.find? (fun loc => loc.name.data == l) = none →
        pick_one_spec env spec = Except.error PyErr.keyError) ∧
      (∀ loc, env.locations.find? (fun loc => loc.name.data == l) = some loc →
        ∀ r, compileChars p = some r →
          pick_one_spec env spec =
            Except.ok ((listAAs env (some loc.locationId)).filter
              (fun aa => matchB r aa.name)))) ∧
    (3 ≤ (splitCols spec.data).length →
      pick_one_spec env spec = Except.error PyErr.keyError) := by
  refine ⟨?_, ?_, ?_⟩
  · intro p hp r hr
    unfold pick_one_spec
    rw [hp]
    show pickCore env p none = _
    unfold pickCore
    rw [hr]
  · intro l p hp
    constructor
    · intro hf
      unfold pick_one_spec
      rw [hp]
      show (match env.locations.find? (fun loc => loc.name.data == l) with
        | none => Except.error PyErr.keyError
        | some loc => pickCore env p (some loc.locationId)) = _
      rw [hf]
    · intro loc hf r hr
      unfold pick_one_spec
      rw [hp]
      show (match env.locations.find? (fun loc => loc.name.data == l) with
        | none => Except.error PyErr.keyError
        | some loc => pickCore env p (some loc.locationId)) = _
      rw [hf]
      show pickCore env p (some loc.locationId) = _
      unfold pickCore
      rw [hr]
  · intro hlen
    unfold pick_one_spec
    rcases hsp : splitCols spec.data with _ | ⟨a, _ | ⟨b, _ | ⟨c, t⟩⟩⟩ <;>
      first
        | rfl
        | (rw [hsp] at hlen
           simp at hlen)

/-- Claim C6 witness: concrete selectors exercising the unscoped, scoped,
missing-location and too-many-colons branches. -/
theorem pick_one_spec_colon_scoping_witness :
    pick_one_spec envOne "aa1" =
      Except.ok ((listAAs envOne none).filter (fun aa => matchB rAa1 aa.name)) ∧
    pick_one_spec envOne "SiteA:aa1" =
      Except.ok ((listAAs envOne (some "loc1")).filter (fun aa => matchB rAa1 aa.name)) ∧
    pick_one_spec envOne "SiteB:aa1" = Except.error PyErr.keyError ∧
    pick_one_spec envOne "a:b:c" = Except.error PyErr.keyError :=
  ⟨(pick_one_spec_colon_scoping envOne "aa1").1 ("aa1" : String).data (by decide) rAa1 (by decide),
   ((pick_one_spec_colon_scoping envOne "SiteA:aa1").2.1 ("SiteA" : String).data
      ("aa1" : String).data (by decide)).2 ⟨"loc1", "SiteA"⟩ (by decide) rAa1 (by decide),
   ((pick_one_spec_colon_scoping envOne "SiteB:aa1").2.1 ("SiteB" : String).data
      ("aa1" : String).data (by decide)).1 (by decide),
   (pick_one_spec_colon_scoping envOne "a:b:c").2.2 (by decide)⟩

end AAG
